import Mathlib

/-!
Shallow embedding of `sqlalchemy_i18n/builders.py`: the translation-model
builder (schema synthesis) and the hybrid-property builder (accessor
installation), together with proofs of the specified properties.

Column objects in the source are mutable Python objects; we embed them as
identifiers into a heap of column data, so that `column.copy()` (a fresh
allocation) and in-place mutation (`column_copy.unique = False`) keep their
object-identity semantics.
-/

set_option autoImplicit false

namespace SaI18n

/-- Column type descriptor: the source uses `sa.String(10)` for the locale
column; other column types are opaque to the builder. -/
inductive ColType where
  | string (maxLength : Nat)
  | integer
  | other (tag : String)
deriving DecidableEq, Repr

/-- The data held by one column object: its `name`, type, `unique` flag and
`primary_key` flag (the fields of `sa.Column` the builder reads or writes). -/
structure ColumnData where
  name : String
  ctype : ColType
  unique : Bool
  primary_key : Bool
deriving DecidableEq, Repr

/-- Column object identity (a Python object reference). -/
abbrev ColId := Nat

/-- The heap of live column objects; a `ColId` indexes into `cols`. -/
structure Heap where
  cols : List ColumnData
deriving DecidableEq, Repr

def defaultColumnData : ColumnData :=
  { name := "", ctype := .other "", unique := false, primary_key := false }

/-- Dereference a column object. -/
def Heap.get (h : Heap) (i : ColId) : ColumnData :=
  h.cols.getD i defaultColumnData

/-- Allocate a fresh column object holding `d`; returns the new heap and the
fresh reference. -/
def Heap.alloc (h : Heap) (d : ColumnData) : Heap × ColId :=
  (⟨h.cols ++ [d]⟩, h.cols.length)

/-- Mutate the column object `i` in place. -/
def Heap.write (h : Heap) (i : ColId) (d : ColumnData) : Heap :=
  ⟨h.cols.set i d⟩

/-- `column.copy()`: allocate a fresh column object with the same data. -/
def columnCopy (h : Heap) (i : ColId) : Heap × ColId :=
  h.alloc (h.get i)

/-- `sa.schema.ForeignKeyConstraint(names, refnames, ondelete)`. -/
structure ForeignKeyConstraint where
  columns : List String
  refcolumns : List String
  ondelete : Option String
deriving DecidableEq, Repr

/-- The synthesized translation type: its name, base classes (by name), the
optional `__tablename__` and `__table_args__` entries (absent when an
ancestor's translation type is reused), the name-keyed column mapping in
insertion order, and the `__parent_class__` back-reference. -/
structure TransClass where
  name : String
  bases : List String
  tablename : Option String
  table_args : Option ForeignKeyConstraint
  columns : List (String × ColId)
  parent_class : Option String
deriving DecidableEq, Repr

/-- The model's `__translatable__` configuration dict.  Every key may be
absent (`none`); an absent key makes `option` fall back to the manager.
`cls` stands for the `class` key and `mgr` for the `manager` key written by
the builder (a manager is referenced by its identity). -/
structure TranslatableDict where
  locales : Option (List String)
  table_name : Option String
  locale_column_name : Option String
  base_classes : Option (List String)
  exclude_hybrid_properties : Option (List String)
  cls : Option TransClass
  mgr : Option Nat
deriving DecidableEq, Repr

/-- Modelled from the spec: the translation manager is an external
collaborator; the builder consumes its fallback `options` mapping (used when
the model omits a key) and its `closest_generated_parent` lookup, which
returns the already-generated translation type of the nearest ancestor of a
model, by model name, or `none`. -/
structure Manager where
  id : Nat
  locales : List String
  table_name : String
  locale_column_name : String
  base_classes : Option (List String)
  exclude_hybrid_properties : List String
  closest_generated_parent : String → Option String

/-- A translatable model as the schema builder sees it: class name,
`__tablename__`, its primary-key columns (in order, as returned by
`primary_keys(model)`), its `__translated_columns__` (in order), the
`__translatable__` dict and the identity of that dict object (so that the
shallow copy made by the builder is observable), and the ambient declarative
base class name. -/
structure Model where
  name : String
  tablename : String
  pk : List ColId
  translated_columns : List ColId
  translatable : TranslatableDict
  translatable_id : Nat
  declarative_base : String

/-- `TranslationBuilder.option('locales')`: the model-level value when the
key is present (even when its value is empty), else the manager default. -/
def optLocales (mgr : Manager) (m : Model) : List String :=
  match m.translatable.locales with
  | some v => v
  | none => mgr.locales

/-- `TranslationBuilder.option('table_name')`. -/
def optTableName (mgr : Manager) (m : Model) : String :=
  match m.translatable.table_name with
  | some v => v
  | none => mgr.table_name

/-- `TranslationBuilder.option('locale_column_name')`. -/
def optLocaleColumnName (mgr : Manager) (m : Model) : String :=
  match m.translatable.locale_column_name with
  | some v => v
  | none => mgr.locale_column_name

/-- `TranslationBuilder.option('base_classes')`. -/
def optBaseClasses (mgr : Manager) (m : Model) : Option (List String) :=
  match m.translatable.base_classes with
  | some v => some v
  | none => mgr.base_classes

/-- `'%s_translation' % tablename`-style template application. -/
def applyTemplate (tpl base : String) : String :=
  tpl.replace "%s" base

/-- `TranslationModelBuilder.table_name`. -/
def builderTableName (mgr : Manager) (m : Model) : String :=
  applyTemplate (optTableName mgr m) m.tablename

/-- The loop body of `build_reflected_primary_keys`: copy the column, strip
its uniqueness flag in place, and collect the copies in order. -/
def buildReflectedPrimaryKeysAux (h : Heap) : List ColId → Heap × List ColId
  | [] => (h, [])
  | i :: rest =>
    let hc := columnCopy h i
    let h2 := hc.1.write hc.2 { hc.1.get hc.2 with unique := false }
    let hr := buildReflectedPrimaryKeysAux h2 rest
    (hr.1, hc.2 :: hr.2)

/-- `TranslationModelBuilder.build_reflected_primary_keys`. -/
def build_reflected_primary_keys (h : Heap) (m : Model) : Heap × List ColId :=
  buildReflectedPrimaryKeysAux h m.pk

/-- `TranslationModelBuilder.build_foreign_key`. -/
def build_foreign_key (h : Heap) (m : Model) : ForeignKeyConstraint :=
  let names := m.pk.map (fun i => (h.get i).name)
  { columns := names
    refcolumns := names.map (fun n => m.tablename ++ "." ++ n)
    ondelete := some "CASCADE" }

/-- `TranslationModelBuilder.build_locale_column`: a fresh
`sa.Column(locale_column_name, sa.String(10), primary_key=True)`. -/
def build_locale_column (h : Heap) (mgr : Manager) (m : Model) : Heap × ColId :=
  h.alloc
    { name := optLocaleColumnName mgr m
      ctype := .string 10
      unique := false
      primary_key := true }

/-- The column sequence assembled by the `columns` property, before the
`dict(...)` conversion: on a root model the primary-key copies, then the
locale column, then `__translated_columns__`; on a model with a closest
generated parent, only `__translated_columns__`. -/
def columnsList (h : Heap) (mgr : Manager) (m : Model) : Heap × List ColId :=
  match mgr.closest_generated_parent m.name with
  | some _ => (h, m.translated_columns)
  | none =>
    let hp := build_reflected_primary_keys h m
    let hl := build_locale_column hp.1 mgr m
    (hl.1, hp.2 ++ [hl.2] ++ m.translated_columns)

/-- One insertion into a Python dict: an existing key keeps its position but
takes the new value; a new key is appended at the end. -/
def dictInsert : List (String × ColId) → String → ColId → List (String × ColId)
  | [], k, v => [(k, v)]
  | p :: rest, k, v =>
    if p.1 = k then (k, v) :: rest else p :: dictInsert rest k v

/-- `dict([(column.name, column) for column in columns])`: left-to-right
insertion, so a later column of an already-seen name replaces the earlier
value. -/
def dictOfColumns (h : Heap) (cols : List ColId) : List (String × ColId) :=
  cols.foldl (fun d c => dictInsert d (h.get c).name c) []

/-- Key lookup in the embedded dict. -/
def dictLookup : List (String × ColId) → String → Option ColId
  | [], _ => .none
  | p :: rest, k => if p.1 = k then some p.2 else dictLookup rest k

/-- The last column of a sequence bearing a given name (the column that
last-write-wins dict conversion keeps for that name). -/
def lastWithName (h : Heap) (cols : List ColId) (k : String) : Option ColId :=
  cols.reverse.find? (fun c => (h.get c).name = k)

/-- `TranslationModelBuilder.columns`: the name-keyed column mapping. -/
def builderColumns (h : Heap) (mgr : Manager) (m : Model) :
    Heap × List (String × ColId) :=
  let hc := columnsList h mgr m
  (hc.1, dictOfColumns hc.1 hc.2)

/-- `TranslationModelBuilder.base_classes`:
`parent or option('base_classes') or (declarative_base(model),)`, with
Python truthiness (an absent or empty option falls through). -/
def builderBaseClasses (mgr : Manager) (m : Model) : List String :=
  match mgr.closest_generated_parent m.name with
  | some p => [p]
  | none =>
    match optBaseClasses mgr m with
    | some l => if l.isEmpty then [m.declarative_base] else l
    | none => [m.declarative_base]

/-- `TranslationModelBuilder.build_model`: on a root model the data dict
gets `__table_args__` (the foreign key) and `__tablename__`; in both cases
the merged columns; the type is named `<Model>Translation` and created with
the chosen base classes. -/
def build_model (h : Heap) (mgr : Manager) (m : Model) : Heap × TransClass :=
  let args : Option ForeignKeyConstraint × Option String :=
    match mgr.closest_generated_parent m.name with
    | some _ => (none, none)
    | none => (some (build_foreign_key h m), some (builderTableName mgr m))
  let hc := builderColumns h mgr m
  (hc.1,
    { name := m.name ++ "Translation"
      bases := builderBaseClasses mgr m
      tablename := args.2
      table_args := args.1
      columns := hc.2
      parent_class := none })

/-- Column data with the uniqueness constraint stripped, as
`build_reflected_primary_keys` leaves each primary-key copy. -/
def stripUnique (d : ColumnData) : ColumnData :=
  { d with unique := false }

/-- The column data of the primary-key copies made by
`build_reflected_primary_keys`, in parent primary-key order. -/
def pkCopyData (h : Heap) (m : Model) : List ColumnData :=
  m.pk.map (fun i => stripUnique (h.get i))

/-- The data of the locale column built by `build_locale_column`. -/
def localeColumnData (mgr : Manager) (m : Model) : ColumnData :=
  { name := optLocaleColumnName mgr m
    ctype := .string 10
    unique := false
    primary_key := true }

/-- The heap after the root-model column building: the original objects,
then the primary-key copies, then the locale column. -/
def rootHeap (h : Heap) (mgr : Manager) (m : Model) : Heap :=
  ⟨h.cols ++ pkCopyData h m ++ [localeColumnData mgr m]⟩

/-- The column-object references assembled on a root model, in insertion
order: the fresh primary-key copies, the fresh locale column, then the
model's own translated columns. -/
def rootColumnIds (h : Heap) (m : Model) : List ColId :=
  List.range' h.cols.length m.pk.length ++
    (h.cols.length + m.pk.length) :: m.translated_columns

/-- The column names contributed on a root model, in insertion order: the
parent primary-key names, the locale column name, the translated column
names.  Well-formed models keep these pairwise distinct. -/
def rootColumnNames (h : Heap) (mgr : Manager) (m : Model) : List String :=
  m.pk.map (fun i => (h.get i).name) ++
    optLocaleColumnName mgr m ::
      m.translated_columns.map (fun c => (h.get c).name)

/-- The single error kind of the builders. -/
inductive I18nError where
  | improperlyConfigured (msg : String)
deriving DecidableEq, Repr

/-- The message of the locale-requirement configuration error. -/
def localesErr : I18nError :=
  .improperlyConfigured
    ("Either the translation manager or the model class must define" ++
     " available locales as a configuration option.")

/-- `TranslationModelBuilder.__call__`: check the locale requirement, make a
shallow copy of `__translatable__` (a fresh dict object), build the
translation type, store it under the `class` key and the manager under the
`manager` key, and set `__parent_class__` on the translation type.  The
returned heap and model are the post-call state; on an error they are the
state at raise time. -/
def translationModelBuilderCall (h : Heap) (mgr : Manager) (m : Model) :
    Except I18nError TransClass × Heap × Model :=
  if (optLocales mgr m).isEmpty then
    (.error localesErr, h, m)
  else
    let m1 : Model := { m with translatable_id := m.translatable_id + 1 }
    let hb := build_model h mgr m1
    let tc : TransClass := { hb.2 with parent_class := some m.name }
    let m2 : Model :=
      { m1 with translatable := { m1.translatable with cls := some tc, mgr := some mgr.id } }
    (.ok tc, hb.1, m2)

/-! ## HybridPropertyBuilder -/

/-- A value stored in a translation row attribute; `truthiness` follows the
getter's `if value:` test (None and the empty string are falsy). -/
inductive Value where
  | none
  | str (s : String)
deriving DecidableEq, Repr

/-- Python truthiness of a row attribute value. -/
def Value.truthy : Value → Bool
  | .none => false
  | .str s => !s.isEmpty

/-- Modelled from the spec: a translatable object instance as the generated
accessors see it — the currently selected locale and, for each locale, the
attribute values of that translation row (`obj.translations[locale]`); the
session collaborator managing these rows is outside the builder sources. -/
structure TransObj where
  current_locale : String
  translations : String → String → Value

/-- Modelled from the spec: `obj.current_translation` is the translation row
for the currently selected locale. -/
def TransObj.current_translation (o : TransObj) (attr : String) : Value :=
  o.translations o.current_locale attr

/-- The `default_locale` option value the getter obtains from
`manager.option(obj, 'default_locale')`: a static locale or a callable
taking the instance. -/
inductive DefaultLocaleOpt where
  | value (l : String)
  | callable (f : TransObj → String)

/-- `HybridPropertyBuilder.getter_factory(name)`: read the attribute off the
current translation; if the value is truthy return it, otherwise resolve the
default locale (calling it when callable) and read the attribute off that
locale's translation row. -/
def attribute_getter (dl : DefaultLocaleOpt) (name : String) (obj : TransObj) :
    Value :=
  let value := obj.current_translation name
  if value.truthy then value
  else
    let default_locale :=
      match dl with
      | .value l => l
      | .callable f => f obj
    obj.translations default_locale name

/-- `HybridPropertyBuilder.setter_factory(name)`:
`setattr(obj.current_translation, name, value)` — the row object for the
currently selected locale is mutated in place. -/
def attribute_setter (name : String) (obj : TransObj) (v : Value) : TransObj :=
  { obj with
    translations := fun l a =>
      if l = obj.current_locale ∧ a = name then v else obj.translations l a }

/-- The collision configuration error raised by `detect_collisions`. -/
def collisionErr (columnName clsName : String) : I18nError :=
  .improperlyConfigured
    ("Attribute name collision detected. Could not create " ++
     "hybrid property for translated attribute " ++ columnName ++
     ". An attribute with the same already exists in parent " ++
     "class " ++ clsName ++ ".")

/-- A translatable model as the hybrid-property builder sees it: its class
name, the keys of `__translated_columns__` in declaration order, the mapped
attribute names `sa.inspect(model).has_property` knows (inherited or own),
the model-level `exclude_hybrid_properties` override when present, and the
hybrid accessors installed on the class so far, in installation order. -/
structure HybridModel where
  name : String
  translated_keys : List String
  mapped_properties : List String
  exclude_override : Option (List String)
  hybrids : List String

/-- Modelled from the spec: `manager.option(model,
'exclude_hybrid_properties')` resolves the model-level configuration value,
falling back to the manager options when the model omits the key. -/
def optExcludeHybrid (mgr : Manager) (m : HybridModel) : List String :=
  match m.exclude_override with
  | some v => v
  | none => mgr.exclude_hybrid_properties

/-- `HybridPropertyBuilder.detect_collisions(column_name)`: raise when the
model already has a mapped property of that name. -/
def detect_collisions (m : HybridModel) (columnName : String) :
    Except I18nError Unit :=
  if columnName ∈ m.mapped_properties then
    .error (collisionErr columnName m.name)
  else
    .ok ()

/-- The loop of `HybridPropertyBuilder.__call__` over the translated column
keys: resolve the exclusion option, skip excluded keys, run collision
detection (which raises, keeping the accessors already installed), then
install the accessor for the key. -/
def hybridCallAux (mgr : Manager) (m : HybridModel) :
    List String → List String → Except I18nError Unit × List String
  | installed, [] => (.ok (), installed)
  | installed, k :: rest =>
    if k ∈ optExcludeHybrid mgr m then
      hybridCallAux mgr m installed rest
    else
      match detect_collisions m k with
      | .error e => (.error e, installed)
      | .ok _ => hybridCallAux mgr m (installed ++ [k]) rest

/-- `HybridPropertyBuilder.__call__`: run the loop over
`__translated_columns__`; the returned model carries the accessors that were
installed (also when the pass raised part-way). -/
def hybridPropertyBuilderCall (mgr : Manager) (m : HybridModel) :
    Except I18nError Unit × HybridModel :=
  let r := hybridCallAux mgr m m.hybrids m.translated_keys
  (r.1, { m with hybrids := r.2 })

/-! ## Concrete instances (used by the evaluation theorems) -/

/-- A concrete heap: an `article` table with integer primary key `id` and
two translated string columns `title` and `content`. -/
def demoHeap : Heap :=
  ⟨[{ name := "id", ctype := .integer, unique := true, primary_key := true },
    { name := "title", ctype := .string 255, unique := false,
      primary_key := false },
    { name := "content", ctype := .string 255, unique := false,
      primary_key := false }]⟩

/-- A model-level configuration dict with every key absent. -/
def demoDict : TranslatableDict :=
  { locales := none, table_name := none, locale_column_name := none,
    base_classes := none, exclude_hybrid_properties := none,
    cls := none, mgr := none }

/-- A concrete manager with default options and locales `en`, `fr`. -/
def demoManager : Manager :=
  { id := 0, locales := ["en", "fr"], table_name := "%s_translation",
    locale_column_name := "locale", base_classes := none,
    exclude_hybrid_properties := [],
    closest_generated_parent := fun _ => none }

/-- A concrete root translatable model `Article`. -/
def demoModel : Model :=
  { name := "Article", tablename := "article", pk := [0],
    translated_columns := [1, 2], translatable := demoDict,
    translatable_id := 0, declarative_base := "Base" }

/-- A manager whose registry knows a generated translation type for the
ancestor of `ArticleSub`. -/
def subManager : Manager :=
  { demoManager with
    closest_generated_parent := fun n =>
      if n = "ArticleSub" then some "ArticleTranslation" else none }

/-- A concrete subclass model contributing one extra translated column. -/
def subModel : Model :=
  { demoModel with name := "ArticleSub", translated_columns := [1] }

/-- A manager with no locales configured. -/
def emptyLocalesManager : Manager :=
  { demoManager with locales := [] }

/-- A model that defines `locales` as the empty set at the model level. -/
def emptyLocalesModel : Model :=
  { demoModel with translatable := { demoDict with locales := some [] } }

/-- A concrete translatable instance: active locale `fr`, the `en` row
holding `title = "hello"`, everything else unset. -/
def demoObj : TransObj :=
  { current_locale := "fr",
    translations := fun l a =>
      if l = "en" ∧ a = "title" then .str "hello" else .none }

/-- A concrete model for the accessor pass: translated keys `name`,
`title`, `content`; `title` collides with an existing mapped property. -/
def demoHybridModel : HybridModel :=
  { name := "Article", translated_keys := ["name", "title", "content"],
    mapped_properties := ["id", "title"], exclude_override := none,
    hybrids := [] }

/-- The same accessor-pass model with `title` excluded at the model level. -/
def demoHybridModelEx : HybridModel :=
  { demoHybridModel with exclude_override := some ["title"] }

/-! ## Heap lemmas -/

theorem Heap.get_append_lt (cols ext : List ColumnData) (i : Nat)
    (hi : i < cols.length) :
    Heap.get ⟨cols ++ ext⟩ i = Heap.get ⟨cols⟩ i := by
  unfold Heap.get
  exact List.getD_append cols ext defaultColumnData i hi

theorem Heap.get_block (pre blk ext : List ColumnData) (k : Nat)
    (hk : k < blk.length) :
    Heap.get ⟨pre ++ blk ++ ext⟩ (pre.length + k) =
      blk.getD k defaultColumnData := by
  have h1 : pre.length + k < (pre ++ blk).length := by
    simp only [List.length_append]; omega
  unfold Heap.get
  rw [List.getD_append _ _ _ _ h1,
    List.getD_append_right _ _ _ _ (Nat.le_add_right _ _)]
  congr 1
  omega

theorem Heap.get_append_mid (cols ext : List ColumnData) (d : ColumnData) :
    Heap.get ⟨cols ++ d :: ext⟩ cols.length = d := by
  unfold Heap.get
  rw [List.getD_append_right _ _ _ _ (Nat.le_refl _)]
  simp

theorem Heap.get_write_ne (h : Heap) (i j : Nat) (d : ColumnData)
    (hij : i ≠ j) :
    Heap.get (h.write j d) i = h.get i := by
  unfold Heap.get Heap.write
  rw [List.getD_eq_getElem?_getD, List.getD_eq_getElem?_getD,
    List.getElem?_set_ne (Ne.symm hij)]

theorem set_append_length (l : List ColumnData) (x y : ColumnData) :
    (l ++ [x]).set l.length y = l ++ [y] := by
  induction l with
  | nil => rfl
  | cons a as ih =>
    simp only [List.cons_append, List.length_cons, List.set]
    exact congrArg (a :: ·) ih

theorem columnCopy_write_eq (h : Heap) (i : ColId) :
    (columnCopy h i).1.write (columnCopy h i).2
      { (columnCopy h i).1.get (columnCopy h i).2 with unique := false } =
    ⟨h.cols ++ [stripUnique (h.get i)]⟩ := by
  have hg : (columnCopy h i).1.get (columnCopy h i).2 = h.get i := by
    show Heap.get ⟨h.cols ++ h.get i :: []⟩ h.cols.length = h.get i
    exact Heap.get_append_mid h.cols [] (h.get i)
  rw [hg]
  show Heap.mk ((h.cols ++ [h.get i]).set h.cols.length (stripUnique (h.get i))) = _
  rw [set_append_length]

theorem buildReflectedPrimaryKeysAux_eq (pks : List ColId) :
    ∀ (h : Heap), (∀ i ∈ pks, i < h.cols.length) →
    buildReflectedPrimaryKeysAux h pks =
      (⟨h.cols ++ pks.map (fun i => stripUnique (h.get i))⟩,
       List.range' h.cols.length pks.length) := by
  induction pks with
  | nil => intro h _; simp [buildReflectedPrimaryKeysAux]
  | cons i rest ih =>
    intro h hvalid
    have hrest : ∀ j ∈ rest,
        j < (Heap.mk (h.cols ++ [stripUnique (h.get i)])).cols.length := by
      intro j hj
      have hlt := hvalid j (List.mem_cons_of_mem i hj)
      show j < (h.cols ++ [_]).length
      simp only [List.length_append, List.length_singleton]
      exact Nat.lt_succ_of_lt hlt
    have hget : ∀ j ∈ rest,
        Heap.get ⟨h.cols ++ [stripUnique (h.get i)]⟩ j = h.get j := by
      intro j hj
      exact Heap.get_append_lt _ _ j (hvalid j (List.mem_cons_of_mem i hj))
    show (let hc := columnCopy h i
          let h2 := hc.1.write hc.2 { hc.1.get hc.2 with unique := false }
          let hr := buildReflectedPrimaryKeysAux h2 rest
          ((hr.1, hc.2 :: hr.2) : Heap × List ColId)) = _
    simp only [columnCopy_write_eq]
    rw [ih ⟨h.cols ++ [stripUnique (h.get i)]⟩ hrest]
    dsimp only
    rw [Prod.mk.injEq]
    have hlen : (h.cols ++ [stripUnique (h.get i)]).length
        = h.cols.length + 1 := by
      simp only [List.length_append, List.length_singleton]
    constructor
    · congr 1
      rw [List.append_assoc, List.singleton_append]
      exact congrArg (fun t => h.cols ++ stripUnique (h.get i) :: t)
        (List.map_congr_left (fun j hj => by rw [hget j hj]))
    · show h.cols.length :: _ = _
      rw [List.length_cons, List.range'_succ, hlen]

theorem Heap.get_append2_lt (a b c : List ColumnData) (i : Nat)
    (hi : i < a.length) :
    Heap.get ⟨a ++ b ++ c⟩ i = Heap.get ⟨a⟩ i := by
  rw [Heap.get_append_lt (a ++ b) c i
      (by rw [List.length_append]; exact Nat.lt_of_lt_of_le hi (Nat.le_add_right _ _)),
    Heap.get_append_lt a b i hi]

theorem getD_map_lt (l : List ColId) (f : ColId → ColumnData) (k : Nat)
    (hk : k < l.length) :
    (l.map f).getD k defaultColumnData = f (l.getD k 0) := by
  rw [List.getD_eq_getElem?_getD, List.getElem?_map,
    List.getElem?_eq_getElem hk, List.getD_eq_getElem?_getD,
    List.getElem?_eq_getElem hk]
  rfl

theorem map_get_block (pre blk ext : List ColumnData) :
    ∀ c ∈ List.range' pre.length blk.length,
      ∃ k, k < blk.length ∧ c = pre.length + k ∧
        Heap.get ⟨pre ++ blk ++ ext⟩ c = blk.getD k defaultColumnData := by
  intro c hc
  rw [List.mem_range'_1] at hc
  refine ⟨c - pre.length, by omega, by omega, ?_⟩
  have hce : c = pre.length + (c - pre.length) := by omega
  conv_lhs => rw [hce]
  exact Heap.get_block pre blk ext (c - pre.length) (by omega)

theorem range'_map_get (blk : List ColumnData) :
    ∀ (pre ext : List ColumnData),
    (List.range' pre.length blk.length).map
        (fun c => Heap.get ⟨pre ++ blk ++ ext⟩ c) = blk := by
  induction blk with
  | nil => intro pre ext; rfl
  | cons b bs ih =>
    intro pre ext
    rw [List.length_cons, List.range'_succ, List.map_cons]
    have hmid : pre ++ (b :: bs) ++ ext = pre ++ b :: (bs ++ ext) := by
      rw [List.append_assoc, List.cons_append]
    have h1 : pre.length + 1 = (pre ++ [b]).length := by
      rw [List.length_append, List.length_singleton]
    have h2 : pre ++ (b :: bs) ++ ext = (pre ++ [b]) ++ bs ++ ext := by
      rw [List.append_assoc, List.append_assoc, List.append_assoc,
        List.singleton_append, List.cons_append]
    congr 1
    · rw [hmid]
      exact Heap.get_append_mid pre (bs ++ ext) b
    · calc (List.range' (pre.length + 1) bs.length).map
            (fun c => Heap.get ⟨pre ++ (b :: bs) ++ ext⟩ c)
          = (List.range' (pre ++ [b]).length bs.length).map
            (fun c => Heap.get ⟨(pre ++ [b]) ++ bs ++ ext⟩ c) := by rw [← h1, ← h2]
        _ = bs := ih (pre ++ [b]) ext

/-! ## Dict lemmas -/

theorem dictInsert_notMem (d : List (String × ColId)) (k : String) (v : ColId)
    (hk : ∀ p ∈ d, p.1 ≠ k) : dictInsert d k v = d ++ [(k, v)] := by
  induction d with
  | nil => rfl
  | cons p rest ih =>
    simp only [dictInsert]
    rw [if_neg (hk p (List.mem_cons_self p rest)),
      ih (fun q hq => hk q (List.mem_cons_of_mem p hq)), List.cons_append]

theorem dictLookup_dictInsert (d : List (String × ColId)) (k : String)
    (v : ColId) (q : String) :
    dictLookup (dictInsert d k v) q = if q = k then some v else dictLookup d q := by
  induction d with
  | nil =>
    show (if k = q then some v else dictLookup [] q) = _
    by_cases hq : q = k
    · rw [if_pos hq.symm, if_pos hq]
    · rw [if_neg (fun hh => hq hh.symm), if_neg hq]
  | cons p rest ih =>
    simp only [dictInsert]
    by_cases hp : p.1 = k
    · rw [if_pos hp]
      show (if k = q then some v else dictLookup rest q) = _
      by_cases hq : q = k
      · rw [if_pos hq.symm, if_pos hq]
      · rw [if_neg (fun hh => hq hh.symm), if_neg hq]
        show _ = if p.1 = q then some p.2 else dictLookup rest q
        rw [if_neg (fun hh => hq (hh.symm.trans hp))]
    · rw [if_neg hp]
      show (if p.1 = q then some p.2 else dictLookup (dictInsert rest k v) q) = _
      by_cases hq : q = k
      · rw [if_neg (fun hh => hp (hh.trans hq)), ih, if_pos hq, if_pos hq]
      · show _ = if q = k then some v else if p.1 = q then some p.2 else _
        rw [if_neg hq, ih, if_neg hq]

theorem dictOfColumns_append (h : Heap) (cs : List ColId) (c : ColId) :
    dictOfColumns h (cs ++ [c]) =
      dictInsert (dictOfColumns h cs) (h.get c).name c := by
  unfold dictOfColumns
  rw [List.foldl_append]
  rfl

theorem dictLookup_dictOfColumns (h : Heap) (cols : List ColId) (k : String) :
    dictLookup (dictOfColumns h cols) k = lastWithName h cols k := by
  induction cols using List.reverseRecOn with
  | nil => rfl
  | append_singleton cs c ih =>
    rw [dictOfColumns_append, dictLookup_dictInsert]
    unfold lastWithName
    rw [List.reverse_append, List.reverse_singleton, List.singleton_append]
    by_cases hc : (h.get c).name = k
    · rw [if_pos hc.symm, List.find?_cons_of_pos _ (by simp [hc])]
    · rw [if_neg (fun hh => hc hh.symm),
        List.find?_cons_of_neg _ (by simp [hc]), ih]
      rfl

theorem mem_dictInsert (d : List (String × ColId)) (k : String) (v : ColId)
    (q : String × ColId) :
    q ∈ dictInsert d k v → q ∈ d ∨ q = (k, v) := by
  induction d with
  | nil =>
    intro hq
    right
    rcases List.mem_cons.mp hq with h1 | h1
    · exact h1
    · cases h1
  | cons p rest ih =>
    simp only [dictInsert]
    by_cases hp : p.1 = k
    · rw [if_pos hp]
      intro hq
      rcases List.mem_cons.mp hq with h1 | h1
      · right; exact h1
      · left; exact List.mem_cons_of_mem p h1
    · rw [if_neg hp]
      intro hq
      rcases List.mem_cons.mp hq with h1 | h1
      · left; rw [h1]; exact List.mem_cons_self p rest
      · rcases ih h1 with h2 | h2
        · left; exact List.mem_cons_of_mem p h2
        · right; exact h2

theorem mem_dictOfColumns (h : Heap) (cols : List ColId) (q : String × ColId) :
    q ∈ dictOfColumns h cols → q.2 ∈ cols ∧ q.1 = (h.get q.2).name := by
  induction cols using List.reverseRecOn with
  | nil => intro hq; cases hq
  | append_singleton cs c ih =>
    rw [dictOfColumns_append]
    intro hq
    rcases mem_dictInsert _ _ _ _ hq with h1 | h1
    · obtain ⟨h2, h3⟩ := ih h1
      exact ⟨List.mem_append_left _ h2, h3⟩
    · rw [h1]
      exact ⟨List.mem_append_right _ (List.mem_cons_self c []), rfl⟩

theorem dictOfColumns_nodup_eq (h : Heap) :
    ∀ (cols : List ColId) (d : List (String × ColId)),
    (cols.map (fun c => (h.get c).name)).Nodup →
    (∀ p ∈ d, p.1 ∉ cols.map (fun c => (h.get c).name)) →
    cols.foldl (fun d c => dictInsert d (h.get c).name c) d =
      d ++ cols.map (fun c => ((h.get c).name, c)) := by
  intro cols
  induction cols with
  | nil => intro d _ _; simp
  | cons c rest ih =>
    intro d hnd hdisj
    rw [List.map_cons, List.nodup_cons] at hnd
    show rest.foldl _ (dictInsert d (h.get c).name c) = _
    have hnotin : ∀ p ∈ d, p.1 ≠ (h.get c).name := by
      intro p hp he
      exact hdisj p hp (by rw [List.map_cons, he]; exact List.mem_cons_self _ _)
    rw [dictInsert_notMem d _ c hnotin]
    rw [ih (d ++ [((h.get c).name, c)]) hnd.2 ?_]
    · rw [List.append_assoc, List.singleton_append, List.map_cons]
    · intro p hp
      rcases List.mem_append.mp hp with h1 | h1
      · intro hmem
        exact hdisj p h1 (by rw [List.map_cons]; exact List.mem_cons_of_mem _ hmem)
      · have hp1 : p = ((h.get c).name, c) := by
          rcases List.mem_cons.mp h1 with h2 | h2
          · exact h2
          · cases h2
        rw [hp1]
        exact hnd.1

theorem dictOfColumns_eq_map (h : Heap) (cols : List ColId)
    (hnd : (cols.map (fun c => (h.get c).name)).Nodup) :
    dictOfColumns h cols = cols.map (fun c => ((h.get c).name, c)) := by
  unfold dictOfColumns
  rw [dictOfColumns_nodup_eq h cols [] hnd (by intro p hp; cases hp)]
  rfl

theorem dictLookup_map_of_mem (H : Heap) (cols : List ColId) (c : ColId)
    (hnd : (cols.map (fun x => (H.get x).name)).Nodup)
    (hc : c ∈ cols) :
    dictLookup (cols.map (fun x => ((H.get x).name, x))) (H.get c).name =
      some c := by
  induction cols with
  | nil => cases hc
  | cons a rest ih =>
    rw [List.map_cons, List.nodup_cons] at hnd
    rw [List.map_cons]
    show (if (H.get a).name = (H.get c).name then some a
          else dictLookup (rest.map fun x => ((H.get x).name, x)) (H.get c).name) =
        some c
    rcases List.mem_cons.mp hc with h1 | h1
    · rw [h1, if_pos rfl]
    · have hne : (H.get a).name ≠ (H.get c).name := by
        intro he
        exact hnd.1 (he ▸ List.mem_map_of_mem (fun x => (H.get x).name) h1)
      rw [if_neg hne]
      exact ih hnd.2 h1

/-! ## Root-branch characterization -/

theorem columnsList_root (h : Heap) (mgr : Manager) (m : Model)
    (hroot : mgr.closest_generated_parent m.name = none)
    (hvalid : ∀ i ∈ m.pk, i < h.cols.length) :
    columnsList h mgr m = (rootHeap h mgr m, rootColumnIds h m) := by
  unfold columnsList
  rw [hroot]
  simp only [build_reflected_primary_keys,
    buildReflectedPrimaryKeysAux_eq m.pk h hvalid, build_locale_column,
    Heap.alloc]
  rw [Prod.mk.injEq]
  constructor
  · rfl
  · show _ ++ [_] ++ _ = _
    unfold rootColumnIds
    rw [List.append_assoc, List.singleton_append]
    exact congrArg
      (fun t => List.range' h.cols.length m.pk.length ++ t :: m.translated_columns)
      (by rw [List.length_append, List.length_map])

theorem rootHeap_get_old (h : Heap) (mgr : Manager) (m : Model) (i : Nat)
    (hi : i < h.cols.length) :
    (rootHeap h mgr m).get i = h.get i :=
  Heap.get_append2_lt _ _ _ i hi

theorem rootHeap_get_locale (h : Heap) (mgr : Manager) (m : Model) :
    (rootHeap h mgr m).get (h.cols.length + m.pk.length) =
      localeColumnData mgr m := by
  have hl : h.cols.length + m.pk.length = (h.cols ++ pkCopyData h m).length := by
    rw [List.length_append]
    unfold pkCopyData
    rw [List.length_map]
  unfold rootHeap
  rw [hl]
  exact Heap.get_append_mid (h.cols ++ pkCopyData h m) [] (localeColumnData mgr m)

theorem rootHeap_get_copy (h : Heap) (mgr : Manager) (m : Model) (k : Nat)
    (hk : k < m.pk.length) :
    (rootHeap h mgr m).get (h.cols.length + k) =
      stripUnique (h.get (m.pk.getD k 0)) := by
  unfold rootHeap
  rw [Heap.get_block h.cols (pkCopyData h m) [localeColumnData mgr m] k
    (by unfold pkCopyData; rw [List.length_map]; exact hk)]
  unfold pkCopyData
  exact getD_map_lt m.pk _ k hk

theorem rootColumnIds_names (h : Heap) (mgr : Manager) (m : Model)
    (htvalid : ∀ c ∈ m.translated_columns, c < h.cols.length) :
    (rootColumnIds h m).map (fun c => ((rootHeap h mgr m).get c).name) =
      rootColumnNames h mgr m := by
  unfold rootColumnIds rootColumnNames
  rw [List.map_append, List.map_cons]
  have hpkl : m.pk.length = (pkCopyData h m).length := by
    unfold pkCopyData
    rw [List.length_map]
  congr 1
  · calc (List.range' h.cols.length m.pk.length).map
          (fun c => ((rootHeap h mgr m).get c).name)
        = ((List.range' h.cols.length m.pk.length).map
            (fun c => (rootHeap h mgr m).get c)).map (fun d => d.name) := by
          rw [List.map_map]; rfl
      _ = ((List.range' h.cols.length (pkCopyData h m).length).map
            (fun c => Heap.get
              ⟨h.cols ++ pkCopyData h m ++ [localeColumnData mgr m]⟩ c)).map
            (fun d => d.name) := by rw [← hpkl]; rfl
      _ = (pkCopyData h m).map (fun d => d.name) := by
          rw [range'_map_get (pkCopyData h m) h.cols [localeColumnData mgr m]]
      _ = m.pk.map (fun i => (h.get i).name) := by
          unfold pkCopyData
          rw [List.map_map]
          exact List.map_congr_left (fun i _ => rfl)
  · congr 1
    · rw [rootHeap_get_locale]
      rfl
    · exact List.map_congr_left
        (fun c hc => by rw [rootHeap_get_old h mgr m c (htvalid c hc)])

theorem rootColumnIds_names_nodup (h : Heap) (mgr : Manager) (m : Model)
    (htvalid : ∀ c ∈ m.translated_columns, c < h.cols.length)
    (hnames : (rootColumnNames h mgr m).Nodup) :
    ((rootColumnIds h m).map
      (fun c => ((rootHeap h mgr m).get c).name)).Nodup := by
  rw [rootColumnIds_names h mgr m htvalid]
  exact hnames

theorem builderColumns_root (h : Heap) (mgr : Manager) (m : Model)
    (hroot : mgr.closest_generated_parent m.name = none)
    (hvalid : ∀ i ∈ m.pk, i < h.cols.length)
    (htvalid : ∀ c ∈ m.translated_columns, c < h.cols.length)
    (hnames : (rootColumnNames h mgr m).Nodup) :
    builderColumns h mgr m =
      (rootHeap h mgr m,
       (rootColumnIds h m).map
         (fun c => (((rootHeap h mgr m).get c).name, c))) := by
  unfold builderColumns
  rw [columnsList_root h mgr m hroot hvalid]
  exact congrArg (fun d => (rootHeap h mgr m, d))
    (dictOfColumns_eq_map _ _ (rootColumnIds_names_nodup h mgr m htvalid hnames))

theorem build_model_root (h : Heap) (mgr : Manager) (m : Model)
    (hroot : mgr.closest_generated_parent m.name = none)
    (hvalid : ∀ i ∈ m.pk, i < h.cols.length)
    (htvalid : ∀ c ∈ m.translated_columns, c < h.cols.length)
    (hnames : (rootColumnNames h mgr m).Nodup) :
    build_model h mgr m =
      (rootHeap h mgr m,
       { name := m.name ++ "Translation"
         bases := builderBaseClasses mgr m
         tablename := some (builderTableName mgr m)
         table_args := some (build_foreign_key h m)
         columns := (rootColumnIds h m).map
           (fun c => (((rootHeap h mgr m).get c).name, c))
         parent_class := none }) := by
  unfold build_model
  rw [hroot, builderColumns_root h mgr m hroot hvalid htvalid hnames]

theorem translationModelBuilderCall_ok (h : Heap) (mgr : Manager) (m : Model)
    (hloc : (optLocales mgr m).isEmpty = false) :
    translationModelBuilderCall h mgr m =
      (.ok { (build_model h mgr m).2 with parent_class := some m.name },
       (build_model h mgr m).1,
       { m with
          translatable_id := m.translatable_id + 1
          translatable := { m.translatable with
            cls := some { (build_model h mgr m).2 with
                          parent_class := some m.name }
            mgr := some mgr.id } }) := by
  unfold translationModelBuilderCall
  simp only [hloc]
  rfl

theorem translationModelBuilderCall_error (h : Heap) (mgr : Manager)
    (m : Model) (hempty : optLocales mgr m = []) :
    translationModelBuilderCall h mgr m = (.error localesErr, h, m) := by
  unfold translationModelBuilderCall
  simp only [hempty, List.isEmpty_nil, if_true]

theorem build_model_sub (h : Heap) (mgr : Manager) (m : Model) (p : String)
    (hparent : mgr.closest_generated_parent m.name = some p) :
    build_model h mgr m =
      (h, { name := m.name ++ "Translation", bases := [p], tablename := none,
            table_args := none,
            columns := dictOfColumns h m.translated_columns,
            parent_class := none }) := by
  unfold build_model builderColumns columnsList builderBaseClasses
  rw [hparent]

theorem range_names_eq_pk_names (h : Heap) (mgr : Manager) (m : Model) :
    (List.range' h.cols.length m.pk.length).map
        (fun c => ((rootHeap h mgr m).get c).name) =
      m.pk.map (fun i => (h.get i).name) := by
  have hpkl : m.pk.length = (pkCopyData h m).length := by
    unfold pkCopyData
    rw [List.length_map]
  calc (List.range' h.cols.length m.pk.length).map
        (fun c => ((rootHeap h mgr m).get c).name)
      = ((List.range' h.cols.length m.pk.length).map
          (fun c => (rootHeap h mgr m).get c)).map (fun d => d.name) := by
        rw [List.map_map]; rfl
    _ = ((List.range' h.cols.length (pkCopyData h m).length).map
          (fun c => Heap.get
            ⟨h.cols ++ pkCopyData h m ++ [localeColumnData mgr m]⟩ c)).map
          (fun d => d.name) := by rw [← hpkl]; rfl
    _ = (pkCopyData h m).map (fun d => d.name) := by
        rw [range'_map_get (pkCopyData h m) h.cols [localeColumnData mgr m]]
    _ = m.pk.map (fun i => (h.get i).name) := by
        unfold pkCopyData
        rw [List.map_map]
        exact List.map_congr_left (fun i _ => rfl)

theorem rootHeap_range_pk (h : Heap) (mgr : Manager) (m : Model)
    (hpk : ∀ i ∈ m.pk, (h.get i).primary_key = true) :
    ∀ c ∈ List.range' h.cols.length m.pk.length,
      ((rootHeap h mgr m).get c).primary_key = true := by
  intro c hc
  rw [List.mem_range'_1] at hc
  have hk : c - h.cols.length < m.pk.length := by omega
  have hce : c = h.cols.length + (c - h.cols.length) := by omega
  conv_lhs => rw [hce]
  rw [rootHeap_get_copy h mgr m _ hk]
  show (h.get (m.pk.getD (c - h.cols.length) 0)).primary_key = true
  refine hpk _ ?_
  rw [List.getD_eq_getElem m.pk 0 hk]
  exact List.getElem_mem hk

/-! ## Accessor-pass lemmas -/

theorem detect_collisions_pos (m : HybridModel) (k : String)
    (hk : k ∈ m.mapped_properties) :
    detect_collisions m k = .error (collisionErr k m.name) := by
  unfold detect_collisions
  rw [if_pos hk]

theorem detect_collisions_neg (m : HybridModel) (k : String)
    (hk : k ∉ m.mapped_properties) :
    detect_collisions m k = .ok () := by
  unfold detect_collisions
  rw [if_neg hk]

theorem hybridCallAux_collision (mgr : Manager) (m : HybridModel) (k : String)
    (post : List String) (hkex : k ∉ optExcludeHybrid mgr m)
    (hkmap : k ∈ m.mapped_properties) :
    ∀ (pre installed : List String),
    (∀ j ∈ pre, j ∈ optExcludeHybrid mgr m ∨ j ∉ m.mapped_properties) →
    hybridCallAux mgr m installed (pre ++ k :: post) =
      (.error (collisionErr k m.name),
       installed ++ pre.filter (fun j => decide (j ∉ optExcludeHybrid mgr m))) := by
  intro pre
  induction pre with
  | nil =>
    intro installed _
    show hybridCallAux mgr m installed (k :: post) = _
    simp only [hybridCallAux]
    rw [if_neg hkex, detect_collisions_pos m k hkmap]
    rw [List.filter_nil, List.append_nil]
  | cons j rest ih =>
    intro installed hpre
    show hybridCallAux mgr m installed (j :: (rest ++ k :: post)) = _
    simp only [hybridCallAux]
    by_cases hj : j ∈ optExcludeHybrid mgr m
    · rw [if_pos hj, ih installed (fun q hq => hpre q (List.mem_cons_of_mem j hq))]
      rw [List.filter_cons_of_neg (by simp [hj])]
    · have hjm : j ∉ m.mapped_properties :=
        (hpre j (List.mem_cons_self j rest)).resolve_left hj
      rw [if_neg hj, detect_collisions_neg m j hjm,
        ih (installed ++ [j]) (fun q hq => hpre q (List.mem_cons_of_mem j hq))]
      rw [List.filter_cons_of_pos (by simp [hj]), List.append_assoc,
        List.singleton_append]

theorem hybridCallAux_skip (mgr : Manager) (m : HybridModel) (k : String)
    (post : List String) (hk : k ∈ optExcludeHybrid mgr m) :
    ∀ (pre installed : List String),
    hybridCallAux mgr m installed (pre ++ k :: post) =
      hybridCallAux mgr m installed (pre ++ post) := by
  intro pre
  induction pre with
  | nil =>
    intro installed
    show hybridCallAux mgr m installed (k :: post) = _
    simp only [hybridCallAux]
    rw [if_pos hk]
    rfl
  | cons j rest ih =>
    intro installed
    show hybridCallAux mgr m installed (j :: (rest ++ k :: post)) =
      hybridCallAux mgr m installed (j :: (rest ++ post))
    simp only [hybridCallAux]
    by_cases hj : j ∈ optExcludeHybrid mgr m
    · rw [if_pos hj, if_pos hj]
      exact ih installed
    · rw [if_neg hj, if_neg hj]
      cases hd : detect_collisions m j with
      | error e => rfl
      | ok u => exact ih (installed ++ [j])

theorem hybridCallAux_installed (mgr : Manager) (m : HybridModel) :
    ∀ (keys installed : List String) (c : String),
    c ∈ (hybridCallAux mgr m installed keys).2 →
    c ∈ installed ∨ (c ∈ keys ∧ c ∉ optExcludeHybrid mgr m) := by
  intro keys
  induction keys with
  | nil => intro installed c hc; left; exact hc
  | cons j rest ih =>
    intro installed c hc
    by_cases hj : j ∈ optExcludeHybrid mgr m
    · simp only [hybridCallAux, if_pos hj] at hc
      rcases ih installed c hc with h1 | h1
      · left; exact h1
      · right; exact ⟨List.mem_cons_of_mem j h1.1, h1.2⟩
    · by_cases hjm : j ∈ m.mapped_properties
      · simp only [hybridCallAux, if_neg hj,
          detect_collisions_pos m j hjm] at hc
        left; exact hc
      · simp only [hybridCallAux, if_neg hj,
          detect_collisions_neg m j hjm] at hc
        rcases ih (installed ++ [j]) c hc with h1 | h1
        · rcases List.mem_append.mp h1 with h2 | h2
          · left; exact h2
          · right
            have hcj : c = j := by
              rcases List.mem_cons.mp h2 with h3 | h3
              · exact h3
              · cases h3
            rw [hcj]
            exact ⟨List.mem_cons_self j rest, hj⟩
        · right; exact ⟨List.mem_cons_of_mem j h1.1, h1.2⟩

theorem root_columns_filter_pk (h : Heap) (mgr : Manager) (m : Model)
    (htvalid : ∀ c ∈ m.translated_columns, c < h.cols.length)
    (hpk : ∀ i ∈ m.pk, (h.get i).primary_key = true)
    (htpk : ∀ c ∈ m.translated_columns, (h.get c).primary_key = false) :
    ((rootColumnIds h m).map
        (fun c => (((rootHeap h mgr m).get c).name, c))).filter
      (fun q => ((rootHeap h mgr m).get q.2).primary_key) =
      (List.range' h.cols.length m.pk.length).map
        (fun c => (((rootHeap h mgr m).get c).name, c)) ++
        [(((rootHeap h mgr m).get (h.cols.length + m.pk.length)).name,
          h.cols.length + m.pk.length)] := by
  unfold rootColumnIds
  rw [List.map_append, List.map_cons, List.filter_append]
  have hA : ((List.range' h.cols.length m.pk.length).map
      (fun c => (((rootHeap h mgr m).get c).name, c))).filter
        (fun q => ((rootHeap h mgr m).get q.2).primary_key) =
      (List.range' h.cols.length m.pk.length).map
        (fun c => (((rootHeap h mgr m).get c).name, c)) := by
    refine List.filter_eq_self.mpr ?_
    intro q hq
    obtain ⟨c, hc, hqe⟩ := List.mem_map.mp hq
    rw [← hqe]
    exact rootHeap_range_pk h mgr m hpk c hc
  have hB : ((rootHeap h mgr m).get
      (h.cols.length + m.pk.length)).primary_key = true := by
    rw [rootHeap_get_locale]
    rfl
  have hC : (m.translated_columns.map
      (fun c => (((rootHeap h mgr m).get c).name, c))).filter
        (fun q => ((rootHeap h mgr m).get q.2).primary_key) = [] := by
    refine List.filter_eq_nil_iff.mpr ?_
    intro q hq
    obtain ⟨c, hc, hqe⟩ := List.mem_map.mp hq
    rw [← hqe]
    show ¬ ((rootHeap h mgr m).get c).primary_key = true
    rw [rootHeap_get_old h mgr m c (htvalid c hc), htpk c hc]
    exact Bool.false_ne_true
  rw [hA, List.filter_cons, if_pos hB, hC]

/-! ## Claim theorems -/

/-- C3 counterexample: the claim says the locale requirement check passes
whenever the manager-level default is a non-empty set; but a model that
defines `locales` as the empty set at the model level makes
`option('locales')` return that empty value without falling back, so the
builder raises even though the manager default `["en", "fr"]` is
non-empty. -/
theorem C3_counterexample :
    demoManager.locales = ["en", "fr"] ∧
    translationModelBuilderCall demoHeap demoManager emptyLocalesModel =
      (.error localesErr, demoHeap, emptyLocalesModel) :=
  ⟨rfl, rfl⟩

/-- C3 (amended): locale resolution uses the model-level value when the
`locales` key is present (even when it is empty), and falls back to the
manager-level default only when the key is absent; synthesis fails with the
configuration error if and only if the value so resolved is empty. -/
theorem C3_locale_resolution (h : Heap) (mgr : Manager) (m : Model) :
    ((translationModelBuilderCall h mgr m).1 = Except.error localesErr ↔
      optLocales mgr m = []) ∧
    (m.translatable.locales = none → optLocales mgr m = mgr.locales) ∧
    (∀ v, m.translatable.locales = some v → optLocales mgr m = v) := by
  refine ⟨⟨?_, ?_⟩, ?_, ?_⟩
  · intro he
    by_cases hloc : optLocales mgr m = []
    · exact hloc
    · exfalso
      have hfalse : (optLocales mgr m).isEmpty = false := by
        cases hl : optLocales mgr m with
        | nil => exact absurd hl hloc
        | cons a l => rfl
      rw [translationModelBuilderCall_ok h mgr m hfalse] at he
      simp at he
  · intro he
    rw [translationModelBuilderCall_error h mgr m he]
  · intro hn
    unfold optLocales
    rw [hn]
  · intro v hv
    unfold optLocales
    rw [hv]

/-- C3 amended-claim evaluation at a concrete input: a model without a
model-level `locales` key resolves to the manager default, and the call of
a model resolving to the empty set is exactly the configuration error. -/
theorem C3_witness :
    optLocales demoManager demoModel = demoManager.locales ∧
    ((translationModelBuilderCall demoHeap emptyLocalesManager
        demoModel).1 = Except.error localesErr ↔
      optLocales emptyLocalesManager demoModel = []) :=
  ⟨(C3_locale_resolution demoHeap demoManager demoModel).2.1 rfl,
   (C3_locale_resolution demoHeap emptyLocalesManager demoModel).1⟩

/-- C4: when the effective locale set is empty, the builder call raises the
configuration error and performs no state change at all: the heap is
untouched and the model is returned exactly as it was — no configuration
copy assigned back (the dict identity is unchanged), no `class` or
`manager` key added, and no translation type (hence no `__parent_class__`
back-reference) exists. -/
theorem C4_error_attaches_nothing (h : Heap) (mgr : Manager) (m : Model)
    (hempty : optLocales mgr m = []) :
    translationModelBuilderCall h mgr m = (.error localesErr, h, m) :=
  translationModelBuilderCall_error h mgr m hempty

/-- C4 evaluation at a concrete input: a manager without locales and a model
without a model-level override. -/
theorem C4_witness :
    optLocales emptyLocalesManager demoModel = [] ∧
    translationModelBuilderCall demoHeap emptyLocalesManager demoModel =
      (.error localesErr, demoHeap, demoModel) :=
  ⟨rfl, C4_error_attaches_nothing demoHeap emptyLocalesManager demoModel rfl⟩

/-- C2: for a model with a closest generated parent, synthesis builds no
second translation table: the generated type has no `__tablename__` and no
foreign-key `__table_args__`, its sole base class is the ancestor's
translation type, the heap gains no new columns (no primary-key copies, no
locale column), the column mapping holds exactly the model's own declared
translated columns, and (for well-formed translated columns) none of them
is a primary-key member, so the primary key is unchanged. -/
theorem C2_subclass_reuses_parent (h : Heap) (mgr : Manager) (m : Model)
    (p : String)
    (hparent : mgr.closest_generated_parent m.name = some p)
    (hloc : (optLocales mgr m).isEmpty = false)
    (htpk : ∀ c ∈ m.translated_columns, (h.get c).primary_key = false) :
    ∃ tc m2, translationModelBuilderCall h mgr m = (.ok tc, h, m2) ∧
      tc.tablename = none ∧
      tc.table_args = none ∧
      tc.bases = [p] ∧
      tc.columns = dictOfColumns h m.translated_columns ∧
      ∀ q ∈ tc.columns, (h.get q.2).primary_key = false := by
  rw [translationModelBuilderCall_ok h mgr m hloc,
    build_model_sub h mgr m p hparent]
  refine ⟨_, _, rfl, rfl, rfl, rfl, rfl, ?_⟩
  intro q hq
  exact htpk q.2 (mem_dictOfColumns h m.translated_columns q hq).1

/-- C2 evaluation at a concrete input: the `ArticleSub` model whose
ancestor translation type is already generated. -/
theorem C2_witness :
    subManager.closest_generated_parent subModel.name =
      some "ArticleTranslation" ∧
    ∃ tc m2,
      translationModelBuilderCall demoHeap subManager subModel =
        (.ok tc, demoHeap, m2) ∧
      tc.tablename = none ∧
      tc.table_args = none ∧
      tc.bases = ["ArticleTranslation"] ∧
      tc.columns = dictOfColumns demoHeap subModel.translated_columns ∧
      ∀ q ∈ tc.columns, (demoHeap.get q.2).primary_key = false :=
  ⟨rfl, C2_subclass_reuses_parent demoHeap subManager subModel
    "ArticleTranslation" rfl rfl (by decide)⟩

/-- C8: the column-merge step converts the assembled column sequence (on a
root model: the primary-key copies, the locale column, then the declared
translated columns) into a name-keyed mapping with Python-dict semantics:
looking up any name yields exactly the last column of the sequence bearing
that name — a later column silently replaces an earlier one of the same
name. -/
theorem C8_last_write_wins (h : Heap) (mgr : Manager) (m : Model)
    (k : String) :
    dictLookup (builderColumns h mgr m).2 k =
      lastWithName (columnsList h mgr m).1 (columnsList h mgr m).2 k ∧
    (mgr.closest_generated_parent m.name = none →
      (∀ i ∈ m.pk, i < h.cols.length) →
      (columnsList h mgr m).2 = rootColumnIds h m) := by
  constructor
  · show dictLookup
        (dictOfColumns (columnsList h mgr m).1 (columnsList h mgr m).2) k = _
    exact dictLookup_dictOfColumns _ _ k
  · intro hroot hvalid
    rw [columnsList_root h mgr m hroot hvalid]

/-- C8 evaluation at a concrete input: on the demo model the last-write-wins
lookup and the root column sequence are both concrete. -/
theorem C8_witness :
    demoManager.closest_generated_parent demoModel.name = none ∧
    (columnsList demoHeap demoManager demoModel).2 =
      rootColumnIds demoHeap demoModel :=
  ⟨rfl, (C8_last_write_wins demoHeap demoManager demoModel "title").2
    rfl (by decide)⟩

/-- C1: on a root translatable model (no already-generated ancestor) with at
least one translated column and a non-empty locale set, the synthesized
translation type's column mapping holds, for each parent primary-key
column, a fresh independent copy with the uniqueness constraint stripped
(its `unique` flag is false, and mutating the copy in the heap leaves the
parent's column data unchanged), plus one locale column that is a
primary-key member, so the primary key of the translation type has exactly
`|parent PK| + 1` members. -/
theorem C1_root_primary_key (h : Heap) (mgr : Manager) (m : Model)
    (hroot : mgr.closest_generated_parent m.name = none)
    (hloc : (optLocales mgr m).isEmpty = false)
    (_hne : m.translated_columns ≠ [])
    (hvalid : ∀ i ∈ m.pk, i < h.cols.length)
    (htvalid : ∀ c ∈ m.translated_columns, c < h.cols.length)
    (hpk : ∀ i ∈ m.pk, (h.get i).primary_key = true)
    (htpk : ∀ c ∈ m.translated_columns, (h.get c).primary_key = false)
    (hnames : (rootColumnNames h mgr m).Nodup) :
    ∃ tc h2 m2, translationModelBuilderCall h mgr m = (.ok tc, h2, m2) ∧
      (∀ i ∈ m.pk, ∃ c, dictLookup tc.columns (h.get i).name = some c ∧
        h2.get c = stripUnique (h.get i) ∧
        (h2.get c).unique = false ∧
        h.cols.length ≤ c ∧
        (∀ dta, (h2.write c dta).get i = h.get i)) ∧
      dictLookup tc.columns (optLocaleColumnName mgr m) =
        some (h.cols.length + m.pk.length) ∧
      h2.get (h.cols.length + m.pk.length) = localeColumnData mgr m ∧
      (tc.columns.filter (fun q => (h2.get q.2).primary_key)).length =
        m.pk.length + 1 := by
  have hnodup := rootColumnIds_names_nodup h mgr m htvalid hnames
  rw [translationModelBuilderCall_ok h mgr m hloc,
    build_model_root h mgr m hroot hvalid htvalid hnames]
  refine ⟨_, _, _, rfl, ?_, ?_, ?_, ?_⟩
  · intro i hi
    obtain ⟨k, hk, hik⟩ := List.getElem_of_mem hi
    have hgetc : (rootHeap h mgr m).get (h.cols.length + k) =
        stripUnique (h.get i) := by
      rw [rootHeap_get_copy h mgr m k hk, List.getD_eq_getElem m.pk 0 hk, hik]
    have hcmem : h.cols.length + k ∈ rootColumnIds h m := by
      unfold rootColumnIds
      refine List.mem_append_left _ ?_
      rw [List.mem_range'_1]
      omega
    refine ⟨h.cols.length + k, ?_, hgetc, ?_, Nat.le_add_right _ _, ?_⟩
    · have hname : (h.get i).name =
          ((rootHeap h mgr m).get (h.cols.length + k)).name := by
        rw [hgetc]
        rfl
      rw [hname]
      exact dictLookup_map_of_mem (rootHeap h mgr m) (rootColumnIds h m) _
        hnodup hcmem
    · rw [hgetc]
      rfl
    · intro dta
      have hilt : i < h.cols.length := hvalid i hi
      have hneq : i ≠ h.cols.length + k :=
        Nat.ne_of_lt (Nat.lt_of_lt_of_le hilt (Nat.le_add_right _ _))
      rw [Heap.get_write_ne _ i _ dta hneq]
      exact rootHeap_get_old h mgr m i hilt
  · have hll : ((rootHeap h mgr m).get
        (h.cols.length + m.pk.length)).name = optLocaleColumnName mgr m := by
      rw [rootHeap_get_locale]
      rfl
    have hlmem : h.cols.length + m.pk.length ∈ rootColumnIds h m := by
      unfold rootColumnIds
      exact List.mem_append_right _ (List.mem_cons_self _ _)
    rw [← hll]
    exact dictLookup_map_of_mem (rootHeap h mgr m) (rootColumnIds h m) _
      hnodup hlmem
  · exact rootHeap_get_locale h mgr m
  · show (((rootColumnIds h m).map
        (fun c => (((rootHeap h mgr m).get c).name, c))).filter
        (fun q => ((rootHeap h mgr m).get q.2).primary_key)).length =
      m.pk.length + 1
    rw [root_columns_filter_pk h mgr m htvalid hpk htpk]
    rw [List.length_append, List.length_map, List.length_singleton]
    simp

/-- C1 evaluation at a concrete input: the demo `Article` model — the copy
of the `id` column is looked up under `"id"`, is unique-stripped and fresh,
and the primary key of the translation type has `1 + 1` members. -/
theorem C1_witness :
    (demoManager.closest_generated_parent demoModel.name = none ∧
      (rootColumnNames demoHeap demoManager demoModel).Nodup) ∧
    ∃ tc h2 m2,
      translationModelBuilderCall demoHeap demoManager demoModel =
        (.ok tc, h2, m2) ∧
      (∀ i ∈ demoModel.pk, ∃ c,
        dictLookup tc.columns ((demoHeap.get i).name) = some c ∧
        h2.get c = stripUnique (demoHeap.get i) ∧
        (h2.get c).unique = false ∧
        demoHeap.cols.length ≤ c ∧
        (∀ dta, (h2.write c dta).get i = demoHeap.get i)) ∧
      dictLookup tc.columns (optLocaleColumnName demoManager demoModel) =
        some (demoHeap.cols.length + demoModel.pk.length) ∧
      h2.get (demoHeap.cols.length + demoModel.pk.length) =
        localeColumnData demoManager demoModel ∧
      (tc.columns.filter (fun q => (h2.get q.2).primary_key)).length =
        demoModel.pk.length + 1 :=
  ⟨⟨rfl, by decide⟩,
   C1_root_primary_key demoHeap demoManager demoModel rfl rfl
     (by decide) (by decide) (by decide) (by decide) (by decide) (by decide)⟩

/-- C7: on a root model the persisted schema shape is: the translation
table's primary-key members, in order, are the copied parent primary-key
columns followed by the locale column; `__table_args__` holds a single
composite foreign key listing the parent primary-key column names in
parent order, referencing `<parent_table>.<name>` for each, with
`ON DELETE CASCADE`; the table name is set; and the locale column is a
bounded string of maximum length 10 named by the `locale_column_name`
option. -/
theorem C7_persisted_schema_shape (h : Heap) (mgr : Manager) (m : Model)
    (hroot : mgr.closest_generated_parent m.name = none)
    (hloc : (optLocales mgr m).isEmpty = false)
    (hvalid : ∀ i ∈ m.pk, i < h.cols.length)
    (htvalid : ∀ c ∈ m.translated_columns, c < h.cols.length)
    (hpk : ∀ i ∈ m.pk, (h.get i).primary_key = true)
    (htpk : ∀ c ∈ m.translated_columns, (h.get c).primary_key = false)
    (hnames : (rootColumnNames h mgr m).Nodup) :
    ∃ tc h2 m2, translationModelBuilderCall h mgr m = (.ok tc, h2, m2) ∧
      (tc.columns.filter (fun q => (h2.get q.2).primary_key)).map Prod.fst =
        m.pk.map (fun i => (h.get i).name) ++ [optLocaleColumnName mgr m] ∧
      tc.table_args = some
        { columns := m.pk.map (fun i => (h.get i).name)
          refcolumns := (m.pk.map (fun i => (h.get i).name)).map
            (fun n => m.tablename ++ "." ++ n)
          ondelete := some "CASCADE" } ∧
      tc.tablename = some (builderTableName mgr m) ∧
      h2.get (h.cols.length + m.pk.length) =
        { name := optLocaleColumnName mgr m, ctype := ColType.string 10,
          unique := false, primary_key := true } := by
  rw [translationModelBuilderCall_ok h mgr m hloc,
    build_model_root h mgr m hroot hvalid htvalid hnames]
  refine ⟨_, _, _, rfl, ?_, rfl, rfl, rootHeap_get_locale h mgr m⟩
  show (((rootColumnIds h m).map
      (fun c => (((rootHeap h mgr m).get c).name, c))).filter
      (fun q => ((rootHeap h mgr m).get q.2).primary_key)).map Prod.fst = _
  rw [root_columns_filter_pk h mgr m htvalid hpk htpk]
  rw [List.map_append, List.map_map]
  congr 1
  · exact (List.map_congr_left (fun c _ => rfl)).trans
      (range_names_eq_pk_names h mgr m)
  · show [((rootHeap h mgr m).get (h.cols.length + m.pk.length)).name] = _
    rw [rootHeap_get_locale]
    rfl

/-- C7 evaluation at a concrete input: the demo `Article` model, whose
translation table gets primary key `(id, locale)`, a cascading composite
foreign key `id -> article.id`, and a `String(10)` locale column named
`locale`. -/
theorem C7_witness :
    ∃ tc h2 m2,
      translationModelBuilderCall demoHeap demoManager demoModel =
        (.ok tc, h2, m2) ∧
      (tc.columns.filter (fun q => (h2.get q.2).primary_key)).map Prod.fst =
        demoModel.pk.map (fun i => (demoHeap.get i).name) ++
          [optLocaleColumnName demoManager demoModel] ∧
      tc.table_args = some
        { columns := demoModel.pk.map (fun i => (demoHeap.get i).name)
          refcolumns := (demoModel.pk.map
            (fun i => (demoHeap.get i).name)).map
              (fun n => demoModel.tablename ++ "." ++ n)
          ondelete := some "CASCADE" } ∧
      tc.tablename = some (builderTableName demoManager demoModel) ∧
      h2.get (demoHeap.cols.length + demoModel.pk.length) =
        { name := optLocaleColumnName demoManager demoModel,
          ctype := ColType.string 10, unique := false, primary_key := true } :=
  C7_persisted_schema_shape demoHeap demoManager demoModel rfl rfl
    (by decide) (by decide) (by decide) (by decide) (by decide)

/-- C5 counterexample: the claim promises the round trip for every written
value, but the getter falls back whenever the stored value is falsy; writing
the empty string under the active locale `fr` and reading it back returns
the default-locale row's `"hello"` instead of the written value. -/
theorem C5_counterexample :
    attribute_getter (.value "en") "title"
        (attribute_setter "title" demoObj (Value.str "")) =
      Value.str "hello" ∧
    Value.str "hello" ≠ Value.str "" := by
  refine ⟨?_, by decide⟩
  rfl

/-- C5 (amended): for a written value that is truthy (non-empty, non-null),
writing via the setter while a locale is active and reading via the getter
while the same locale is still active returns the value unchanged; and
reading while a different locale whose row holds no value for the attribute
is active returns the default-locale row's value, with no fallback beyond
that single default locale. -/
theorem C5_truthy_round_trip (obj : TransObj) (name M D : String) (v : Value)
    (hv : v.truthy = true)
    (hM : ({ attribute_setter name obj v with
              current_locale := M } : TransObj).translations M name =
      Value.none) :
    attribute_getter (.value D) name (attribute_setter name obj v) = v ∧
    attribute_getter (.value D) name
        { attribute_setter name obj v with current_locale := M } =
      (attribute_setter name obj v).translations D name := by
  have hcur : (attribute_setter name obj v).current_translation name = v := by
    show (if obj.current_locale = obj.current_locale ∧ name = name then v
          else obj.translations obj.current_locale name) = v
    rw [if_pos ⟨rfl, rfl⟩]
  constructor
  · show (if ((attribute_setter name obj v).current_translation name).truthy
          then (attribute_setter name obj v).current_translation name
          else _) = v
    rw [hcur, hv]
    rfl
  · have hval : ({ attribute_setter name obj v with
        current_locale := M } : TransObj).current_translation name =
        Value.none := hM
    show (if (({ attribute_setter name obj v with
              current_locale := M } : TransObj).current_translation
            name).truthy
          then _ else _) = _
    rw [hval]
    rfl

/-- C5 amended-claim evaluation at a concrete input: writing the truthy
value `"bonjour"` under active locale `fr` reads back unchanged, and with
active locale `de` (no `de` row value) the getter returns the `en` default
row's value. -/
theorem C5_witness :
    ((Value.str "bonjour").truthy = true ∧
      ({ attribute_setter "title" demoObj (Value.str "bonjour") with
          current_locale := "de" } : TransObj).translations "de" "title" =
        Value.none) ∧
    attribute_getter (.value "en") "title"
        (attribute_setter "title" demoObj (Value.str "bonjour")) =
      Value.str "bonjour" ∧
    attribute_getter (.value "en") "title"
        { attribute_setter "title" demoObj (Value.str "bonjour") with
          current_locale := "de" } =
      (attribute_setter "title" demoObj (Value.str "bonjour")).translations
        "en" "title" :=
  ⟨⟨by decide, by decide⟩,
   C5_truthy_round_trip demoObj "title" "de" "en" (Value.str "bonjour")
     (by decide) (by decide)⟩

/-- C9: the instance-level setter writes only to the currently-selected
translation row's same-named attribute: every other (locale, attribute)
slot — in particular any other locale's row, such as the default locale's
when a different locale is selected — is unchanged, for every input value,
and the selected locale itself is unchanged. -/
theorem C9_setter_frame (name : String) (obj : TransObj) (v : Value)
    (l a : String) (hother : ¬ (l = obj.current_locale ∧ a = name)) :
    (attribute_setter name obj v).translations l a =
      obj.translations l a ∧
    (attribute_setter name obj v).translations obj.current_locale name = v ∧
    (attribute_setter name obj v).current_locale = obj.current_locale := by
  refine ⟨?_, ?_, rfl⟩
  · show (if l = obj.current_locale ∧ a = name then v
          else obj.translations l a) = obj.translations l a
    rw [if_neg hother]
  · show (if obj.current_locale = obj.current_locale ∧ name = name then v
          else obj.translations obj.current_locale name) = v
    rw [if_pos ⟨rfl, rfl⟩]

/-- C9 evaluation at a concrete input: writing `title` while `fr` is active
leaves the `en` (default) row's `title` untouched. -/
theorem C9_witness :
    ¬ (("en" : String) = demoObj.current_locale ∧
        ("title" : String) = "title") ∧
    (attribute_setter "title" demoObj (Value.str "salut")).translations
        "en" "title" = demoObj.translations "en" "title" :=
  ⟨by decide,
   (C9_setter_frame "title" demoObj (Value.str "salut") "en" "title"
     (by decide)).1⟩

/-- C6: when a non-excluded translated column name collides with an
existing mapped attribute, the accessor pass raises the configuration error
naming that column and installs no accessor for it, while the accessors
already installed for the non-colliding, non-excluded columns processed
earlier in the pass remain attached — fail-fast, no rollback. -/
theorem C6_collision_fail_fast (mgr : Manager) (m : HybridModel)
    (pre post : List String) (k : String)
    (hsplit : m.translated_keys = pre ++ k :: post)
    (hpre : ∀ j ∈ pre, j ∈ optExcludeHybrid mgr m ∨ j ∉ m.mapped_properties)
    (hkex : k ∉ optExcludeHybrid mgr m)
    (hkmap : k ∈ m.mapped_properties)
    (hkh : k ∉ m.hybrids) :
    hybridPropertyBuilderCall mgr m =
      (.error (collisionErr k m.name),
       { m with hybrids := m.hybrids ++
          pre.filter (fun j => decide (j ∉ optExcludeHybrid mgr m)) }) ∧
    k ∉ (hybridPropertyBuilderCall mgr m).2.hybrids := by
  have heq : hybridPropertyBuilderCall mgr m =
      (.error (collisionErr k m.name),
       { m with hybrids := m.hybrids ++
          pre.filter (fun j => decide (j ∉ optExcludeHybrid mgr m)) }) := by
    unfold hybridPropertyBuilderCall
    rw [hsplit, hybridCallAux_collision mgr m k post hkex hkmap pre
      m.hybrids hpre]
  refine ⟨heq, ?_⟩
  rw [heq]
  show k ∉ m.hybrids ++ pre.filter _
  intro hmem
  rcases List.mem_append.mp hmem with h1 | h1
  · exact hkh h1
  · have hkpre : k ∈ pre := List.mem_of_mem_filter h1
    rcases hpre k hkpre with h2 | h2
    · exact hkex h2
    · exact h2 hkmap

/-- C6 evaluation at a concrete input: in the demo pass (`name`, `title`,
`content` with `title` mapped on the class) the collision on `title` raises
after `name` has been installed, and `content` never is. -/
theorem C6_witness :
    demoHybridModel.translated_keys = ["name"] ++ "title" :: ["content"] ∧
    hybridPropertyBuilderCall demoManager demoHybridModel =
      (.error (collisionErr "title" "Article"),
       { demoHybridModel with hybrids := ["name"] }) ∧
    "title" ∉ (hybridPropertyBuilderCall demoManager demoHybridModel).2.hybrids :=
  ⟨rfl,
   ((C6_collision_fail_fast demoManager demoHybridModel ["name"] ["content"]
      "title" rfl (by decide) (by decide) (by decide) (by decide)).1).trans
     (by rfl),
   (C6_collision_fail_fast demoManager demoHybridModel ["name"] ["content"]
      "title" rfl (by decide) (by decide) (by decide) (by decide)).2⟩

/-- C10: the exclusion check runs before collision detection — for a
translated column name in the effective `exclude_hybrid_properties` option
the pass skips the name entirely (even when it also collides with a mapped
attribute): the pass behaves exactly as if the column were absent, raises
no error on its account, installs no accessor for it, and processes the
remaining columns. -/
theorem C10_exclusion_before_collision (mgr : Manager) (m : HybridModel)
    (pre post : List String) (k : String)
    (hsplit : m.translated_keys = pre ++ k :: post)
    (hk : k ∈ optExcludeHybrid mgr m)
    (hkh : k ∉ m.hybrids) :
    hybridCallAux mgr m m.hybrids m.translated_keys =
      hybridCallAux mgr m m.hybrids (pre ++ post) ∧
    k ∉ (hybridPropertyBuilderCall mgr m).2.hybrids := by
  constructor
  · rw [hsplit]
    exact hybridCallAux_skip mgr m k post hk pre m.hybrids
  · intro hmem
    have hmem2 : k ∈ (hybridCallAux mgr m m.hybrids m.translated_keys).2 :=
      hmem
    rcases hybridCallAux_installed mgr m m.translated_keys m.hybrids k hmem2
      with h1 | h1
    · exact hkh h1
    · exact h1.2 hk

/-- C10 evaluation at a concrete input: with `title` excluded (although it
collides with a mapped attribute), the pass runs as if `title` were absent
and `title` gets no accessor; `name` and `content` are processed. -/
theorem C10_witness :
    ("title" ∈ optExcludeHybrid demoManager demoHybridModelEx ∧
      "title" ∈ demoHybridModelEx.mapped_properties) ∧
    hybridCallAux demoManager demoHybridModelEx demoHybridModelEx.hybrids
        demoHybridModelEx.translated_keys =
      hybridCallAux demoManager demoHybridModelEx demoHybridModelEx.hybrids
        (["name"] ++ ["content"]) ∧
    "title" ∉
      (hybridPropertyBuilderCall demoManager demoHybridModelEx).2.hybrids :=
  ⟨⟨by decide, by decide⟩,
   (C10_exclusion_before_collision demoManager demoHybridModelEx ["name"]
      ["content"] "title" rfl (by decide) (by decide)).1,
   (C10_exclusion_before_collision demoManager demoHybridModelEx ["name"]
      ["content"] "title" rfl (by decide) (by decide)).2⟩

end SaI18n
